import Mathlib

/-!
Shallow embedding of the `trlc` enumeration-lookup facility from
`include/common/enum/detail.hpp` of the `common` repository.

Modelling conventions:
* `std::string_view` is modelled as `String` (names are ASCII in the code
  base, so `Char`-wise reasoning coincides with byte-wise reasoning).
* `std::array<Enum<T>, N>` is modelled as a `List (Enum T)` of length `N`.
* `size_t` arithmetic is modelled as `Nat` arithmetic modulo `2 ^ 64`
  (`sizeTCard`); the unsigned wrap-around of `mid - 1` in the binary search
  is written out explicitly, exactly as the machine executes it.
* The template policy parameters of `EnumHolder` become function parameters
  of the corresponding operations.
* An out-of-bounds read of the backing array — undefined behaviour in the
  source — is made observable as `SearchOutcome.outOfBounds`.
-/

namespace Trlc

/-- Mirrors `trlc::Enum<T>`: a value paired with its name. The source
`operator==` compares both fields, which coincides with structural
equality of this structure. -/
structure Enum (T : Type) where
  value : T
  name : String
deriving DecidableEq

/-- Mirrors `trlc::default_unknown_enum<T>()`: the value-initialised
`Enum<T>{}`, i.e. default value and empty name. -/
def default_unknown_enum {T : Type} [Inhabited T] : Enum T :=
  { value := default, name := "" }

/-- Mirrors `trlc::EnumHolder<T, N, ...>`: it holds (a reference to) the
array of entries; the three policy template parameters become function
parameters of the operations below. -/
structure EnumHolder (T : Type) where
  m_entries : List (Enum T)

/-- Mirrors `trlc::policy::LinearSearchPolicy::search`: scan the entries in
order, return the first one whose `value` equals the query, and the default
unknown enum if the scan exhausts the array. -/
def LinearSearchPolicy.search {T : Type} [DecidableEq T] [Inhabited T]
    (value : T) (entries : List (Enum T)) : Enum T :=
  match entries with
  | [] => default_unknown_enum
  | entry :: rest =>
    if entry.value = value then entry else LinearSearchPolicy.search value rest

/-- Mirrors `trlc::policy::CaseSensitiveStringSearchPolicy::search`: scan in
order, return the first entry whose `name` equals the query exactly, and the
default unknown enum on exhaustion. -/
def CaseSensitiveStringSearchPolicy.search {T : Type} [Inhabited T]
    (name : String) (entries : List (Enum T)) : Enum T :=
  match entries with
  | [] => default_unknown_enum
  | entry :: rest =>
    if entry.name = name then entry
    else CaseSensitiveStringSearchPolicy.search name rest

/-- Mirrors `std::tolower` on `unsigned char` in the default "C" locale:
the locale-independent ASCII case fold used by the case-insensitive policy. -/
def tolower (c : Char) : Char :=
  if 'A' ≤ c ∧ c ≤ 'Z' then Char.ofNat (c.toNat + 32) else c

/-- Mirrors `trlc::policy::CaseInsensitiveStringSearchPolicy::caseInsensitiveEqual`. -/
def caseInsensitiveEqual (a b : Char) : Bool :=
  decide (tolower a = tolower b)

/-- The match condition inlined in
`CaseInsensitiveStringSearchPolicy::search`:
`name.size() == entry.name.size() && std::equal(entry.name.begin(),
entry.name.end(), name.begin(), caseInsensitiveEqual)`, factored out as a
named predicate on the entry name and the query name. -/
def CaseInsensitiveStringSearchPolicy.nameMatches
    (entryName queryName : String) : Bool :=
  decide (queryName.data.length = entryName.data.length) &&
    (entryName.data.zip queryName.data).all fun p => caseInsensitiveEqual p.1 p.2

/-- Mirrors `trlc::policy::CaseInsensitiveStringSearchPolicy::search`: scan
in order, return the first entry whose name matches the query under the
ASCII case fold, and the default unknown enum on exhaustion. -/
def CaseInsensitiveStringSearchPolicy.search {T : Type} [Inhabited T]
    (name : String) (entries : List (Enum T)) : Enum T :=
  match entries with
  | [] => default_unknown_enum
  | entry :: rest =>
    if CaseInsensitiveStringSearchPolicy.nameMatches entry.name name then entry
    else CaseInsensitiveStringSearchPolicy.search name rest

/-- Mirrors both overloads of `trlc::policy::UnknownPolicy::handle`: the
default unknown-handling strategy ignores the query and the entries and
returns the default unknown enum. -/
def UnknownPolicy.handle {T Q : Type} [Inhabited T]
    (_ : Q) (_ : List (Enum T)) : Enum T :=
  default_unknown_enum

/-- Outcome of running `SortedSearchPolicy::search`: either the function
returns an entry (`found`), or it reads the backing array out of bounds,
which is undefined behaviour in the source (`outOfBounds`). `outOfBounds`
is also produced on fuel exhaustion, which does not occur on the runs
analysed in this file. -/
inductive SearchOutcome (T : Type) where
  | found : Enum T → SearchOutcome T
  | outOfBounds : SearchOutcome T
deriving DecidableEq

/-- The number of values of `size_t`, modelled as a 64-bit unsigned type. -/
def sizeTCard : Nat := 2 ^ 64

/-- The loop of `trlc::policy::SortedSearchPolicy::search`, with explicit
fuel. `left` and `right` are the `size_t` loop variables; `right = mid - 1`
wraps modulo `2 ^ 64` exactly as the source's unsigned arithmetic does, and
the access `entries[mid]` with `mid ≥ N` is reported as `outOfBounds`. -/
def SortedSearchPolicy.searchGo {T : Type} [LinearOrder T] [Inhabited T]
    (value : T) (entries : List (Enum T)) :
    Nat → Nat → Nat → SearchOutcome T
  | 0, _, _ => SearchOutcome.outOfBounds
  | fuel + 1, left, right =>
    if left ≤ right then
      let mid := left + (right - left) / 2
      if h : mid < entries.length then
        let e := entries.get ⟨mid, h⟩
        if e.value = value then SearchOutcome.found e
        else if e.value < value then
          SortedSearchPolicy.searchGo value entries fuel ((mid + 1) % sizeTCard) right
        else
          SortedSearchPolicy.searchGo value entries fuel left
            ((mid + (sizeTCard - 1)) % sizeTCard)
      else SearchOutcome.outOfBounds
    else SearchOutcome.found default_unknown_enum

/-- Mirrors `trlc::policy::SortedSearchPolicy::search`: binary search with
`left = 0` and `right = N - 1` in `size_t` arithmetic (so `right` is
`2 ^ 64 - 1` when `N = 0`). The fuel `N + 66` is enough for any run the
source can take: a run either terminates within `N` halvings of a
sub-interval of the array or wraps `right` around and stops at the
out-of-bounds access in the following iteration. -/
def SortedSearchPolicy.search {T : Type} [LinearOrder T] [Inhabited T]
    (value : T) (entries : List (Enum T)) : SearchOutcome T :=
  SortedSearchPolicy.searchGo value entries (entries.length + 66) 0
    ((entries.length + (sizeTCard - 1)) % sizeTCard)

/-- Mirrors `trlc::EnumHolder::fromValue` for a value-search policy that
cannot access the array out of bounds (`LinearSearchPolicy`): run the bound
search, and if its result equals the default unknown enum, delegate to the
unknown-handling policy with the original query. -/
def EnumHolder.fromValue {T : Type} [DecidableEq T] [Inhabited T]
    (searchV : T → List (Enum T) → Enum T)
    (handleV : T → List (Enum T) → Enum T)
    (h : EnumHolder T) (value : T) : Enum T :=
  let result := searchV value h.m_entries
  if result = default_unknown_enum then handleV value h.m_entries else result

/-- The body of `trlc::EnumHolder::fromValue` after the search step, lifted
to a `SearchOutcome`: if the search read out of bounds the whole call did;
otherwise its result is compared against the default unknown enum and, on
equality, replaced by the unknown-handling policy's answer for the original
query, exactly as lines 80-85 of the source do. -/
def SortedSearchPolicy.wrapResult {T : Type} [LinearOrder T] [Inhabited T]
    (handleV : T → List (Enum T) → Enum T)
    (entries : List (Enum T)) (value : T) :
    SearchOutcome T → SearchOutcome T
  | SearchOutcome.outOfBounds => SearchOutcome.outOfBounds
  | SearchOutcome.found result =>
    SearchOutcome.found
      (if result = default_unknown_enum then handleV value entries else result)

/-- Mirrors `trlc::EnumHolder::fromValue` with `SortedSearchPolicy` bound as
the value-search policy: the search step may hit undefined behaviour, which
propagates to the whole call. -/
def EnumHolder.fromValueSorted {T : Type} [LinearOrder T] [Inhabited T]
    (handleV : T → List (Enum T) → Enum T)
    (h : EnumHolder T) (value : T) : SearchOutcome T :=
  SortedSearchPolicy.wrapResult handleV h.m_entries value
    (SortedSearchPolicy.search value h.m_entries)

/-- Mirrors `trlc::EnumHolder::fromString`: run the bound name-search, and if
its result equals the default unknown enum, delegate to the unknown-handling
policy with the original query. -/
def EnumHolder.fromString {T : Type} [DecidableEq T] [Inhabited T]
    (searchS : String → List (Enum T) → Enum T)
    (handleS : String → List (Enum T) → Enum T)
    (h : EnumHolder T) (name : String) : Enum T :=
  let result := searchS name h.m_entries
  if result = default_unknown_enum then handleS name h.m_entries else result

/-- Mirrors `trlc::EnumHolder::allValues`: return the backing array. -/
def EnumHolder.allValues {T : Type} (h : EnumHolder T) : List (Enum T) :=
  h.m_entries

/-- The entry array of the test suite's `colorEntries`
(`Color` values modelled as `Int`). -/
def colorEntries : List (Enum Int) :=
  [⟨1, "Red"⟩, ⟨2, "Green"⟩, ⟨3, "Blue"⟩, ⟨0, "Unknown"⟩]

/-- The holder over `colorEntries`. -/
def colorHolder : EnumHolder Int :=
  ⟨colorEntries⟩


/- Helper lemmas shared by several claims. -/

/-- Under the default `UnknownPolicy`, `fromValue` coincides with the raw
search result: the unknown policy returns the same default the comparison
tested for. -/
theorem fromValue_unknownPolicy {T : Type} [DecidableEq T] [Inhabited T]
    (searchV : T → List (Enum T) → Enum T) (h : EnumHolder T) (value : T) :
    EnumHolder.fromValue searchV UnknownPolicy.handle h value =
      searchV value h.m_entries := by
  unfold EnumHolder.fromValue UnknownPolicy.handle
  by_cases hc : searchV value h.m_entries = default_unknown_enum
  · simp [hc]
  · simp [hc]

/-- Under the default `UnknownPolicy`, `fromString` coincides with the raw
search result. -/
theorem fromString_unknownPolicy {T : Type} [DecidableEq T] [Inhabited T]
    (searchS : String → List (Enum T) → Enum T) (h : EnumHolder T) (name : String) :
    EnumHolder.fromString searchS UnknownPolicy.handle h name =
      searchS name h.m_entries := by
  unfold EnumHolder.fromString UnknownPolicy.handle
  by_cases hc : searchS name h.m_entries = default_unknown_enum
  · simp [hc]
  · simp [hc]

/-- The linear value search returns the default unknown enum when no entry
carries the queried value. -/
theorem linear_search_not_found {T : Type} [DecidableEq T] [Inhabited T]
    (value : T) (entries : List (Enum T))
    (hall : ∀ e ∈ entries, e.value ≠ value) :
    LinearSearchPolicy.search value entries = default_unknown_enum := by
  induction entries with
  | nil => rfl
  | cons entry rest ih =>
    unfold LinearSearchPolicy.search
    rw [if_neg (hall entry (List.mem_cons_self entry rest))]
    exact ih fun e he => hall e (List.mem_cons_of_mem entry he)

/-- The linear value search returns the first entry, in array order, whose
value equals the query. -/
theorem linear_search_first_match {T : Type} [DecidableEq T] [Inhabited T]
    (value : T) (pre suf : List (Enum T)) (x : Enum T)
    (hpre : ∀ a ∈ pre, a.value ≠ value) (hx : x.value = value) :
    LinearSearchPolicy.search value (pre ++ x :: suf) = x := by
  induction pre with
  | nil =>
    unfold LinearSearchPolicy.search
    simp [hx]
  | cons a pre ih =>
    rw [List.cons_append]
    unfold LinearSearchPolicy.search
    rw [if_neg (hpre a (List.mem_cons_self a pre))]
    exact ih fun b hb => hpre b (List.mem_cons_of_mem a hb)

/-- The case-sensitive name search returns the default unknown enum when no
entry carries the queried name. -/
theorem caseSensitive_search_not_found {T : Type} [Inhabited T]
    (name : String) (entries : List (Enum T))
    (hall : ∀ e ∈ entries, e.name ≠ name) :
    CaseSensitiveStringSearchPolicy.search name entries = default_unknown_enum := by
  induction entries with
  | nil => rfl
  | cons entry rest ih =>
    unfold CaseSensitiveStringSearchPolicy.search
    rw [if_neg (hall entry (List.mem_cons_self entry rest))]
    exact ih fun e he => hall e (List.mem_cons_of_mem entry he)

/-- The case-sensitive name search returns the first entry, in array order,
whose name equals the query. -/
theorem caseSensitive_search_first_match {T : Type} [Inhabited T]
    (name : String) (pre suf : List (Enum T)) (x : Enum T)
    (hpre : ∀ a ∈ pre, a.name ≠ name) (hx : x.name = name) :
    CaseSensitiveStringSearchPolicy.search name (pre ++ x :: suf) = x := by
  induction pre with
  | nil =>
    unfold CaseSensitiveStringSearchPolicy.search
    simp [hx]
  | cons a pre ih =>
    rw [List.cons_append]
    unfold CaseSensitiveStringSearchPolicy.search
    rw [if_neg (hpre a (List.mem_cons_self a pre))]
    exact ih fun b hb => hpre b (List.mem_cons_of_mem a hb)

/-- The case-insensitive name search returns the default unknown enum when no
entry name matches the query under the case fold. -/
theorem caseInsensitive_search_not_found {T : Type} [Inhabited T]
    (name : String) (entries : List (Enum T))
    (hall : ∀ e ∈ entries,
      CaseInsensitiveStringSearchPolicy.nameMatches e.name name = false) :
    CaseInsensitiveStringSearchPolicy.search name entries = default_unknown_enum := by
  induction entries with
  | nil => rfl
  | cons entry rest ih =>
    unfold CaseInsensitiveStringSearchPolicy.search
    rw [if_neg (by simp [hall entry (List.mem_cons_self entry rest)])]
    exact ih fun e he => hall e (List.mem_cons_of_mem entry he)

/-- The case-insensitive name search returns the first entry, in array order,
whose name matches the query under the case fold. -/
theorem caseInsensitive_search_first_match {T : Type} [Inhabited T]
    (name : String) (pre suf : List (Enum T)) (x : Enum T)
    (hpre : ∀ a ∈ pre,
      CaseInsensitiveStringSearchPolicy.nameMatches a.name name = false)
    (hx : CaseInsensitiveStringSearchPolicy.nameMatches x.name name = true) :
    CaseInsensitiveStringSearchPolicy.search name (pre ++ x :: suf) = x := by
  induction pre with
  | nil =>
    unfold CaseInsensitiveStringSearchPolicy.search
    simp [hx]
  | cons a pre ih =>
    rw [List.cons_append]
    unfold CaseInsensitiveStringSearchPolicy.search
    rw [if_neg (by simp [hpre a (List.mem_cons_self a pre)])]
    exact ih fun b hb => hpre b (List.mem_cons_of_mem a hb)

/-- Every name matches itself under the case-insensitive match condition. -/
theorem nameMatches_refl (s : String) :
    CaseInsensitiveStringSearchPolicy.nameMatches s s = true := by
  unfold CaseInsensitiveStringSearchPolicy.nameMatches
  have hall : ∀ l : List Char,
      (l.zip l).all (fun p => caseInsensitiveEqual p.1 p.2) = true := by
    intro l
    induction l with
    | nil => rfl
    | cons c cs ih =>
      rw [List.zip_cons_cons, List.all_cons, Bool.and_eq_true]
      exact ⟨by simp [caseInsensitiveEqual], ih⟩
  simp [hall]

/-- With pairwise-distinct values, the linear value search maps each stored
entry's value back to that entry. -/
theorem linear_search_roundtrip {T : Type} [DecidableEq T] [Inhabited T]
    (entries : List (Enum T)) (e : Enum T) (he : e ∈ entries)
    (hdist : List.Pairwise (fun a b => a.value ≠ b.value) entries) :
    LinearSearchPolicy.search e.value entries = e := by
  induction entries with
  | nil => cases he
  | cons a rest ih =>
    rcases List.mem_cons.mp he with rfl | hmem
    · unfold LinearSearchPolicy.search
      rw [if_pos rfl]
    · have ha : a.value ≠ e.value :=
        (List.pairwise_cons.mp hdist).1 e hmem
      unfold LinearSearchPolicy.search
      rw [if_neg ha]
      exact ih hmem (List.pairwise_cons.mp hdist).2

/-- With pairwise-distinct names, the case-sensitive name search maps each
stored entry's name back to that entry. -/
theorem caseSensitive_search_roundtrip {T : Type} [Inhabited T]
    (entries : List (Enum T)) (e : Enum T) (he : e ∈ entries)
    (hdist : List.Pairwise (fun a b => a.name ≠ b.name) entries) :
    CaseSensitiveStringSearchPolicy.search e.name entries = e := by
  induction entries with
  | nil => cases he
  | cons a rest ih =>
    rcases List.mem_cons.mp he with rfl | hmem
    · unfold CaseSensitiveStringSearchPolicy.search
      rw [if_pos rfl]
    · have ha : a.name ≠ e.name :=
        (List.pairwise_cons.mp hdist).1 e hmem
      unfold CaseSensitiveStringSearchPolicy.search
      rw [if_neg ha]
      exact ih hmem (List.pairwise_cons.mp hdist).2

/-- With names pairwise distinct under the case fold, the case-insensitive
name search maps each stored entry's name back to that entry. -/
theorem caseInsensitive_search_roundtrip {T : Type} [Inhabited T]
    (entries : List (Enum T)) (e : Enum T) (he : e ∈ entries)
    (hdist : List.Pairwise
      (fun a b => CaseInsensitiveStringSearchPolicy.nameMatches a.name b.name = false)
      entries) :
    CaseInsensitiveStringSearchPolicy.search e.name entries = e := by
  induction entries with
  | nil => cases he
  | cons a rest ih =>
    rcases List.mem_cons.mp he with rfl | hmem
    · unfold CaseInsensitiveStringSearchPolicy.search
      rw [if_pos (nameMatches_refl e.name)]
    · have ha := (List.pairwise_cons.mp hdist).1 e hmem
      unfold CaseInsensitiveStringSearchPolicy.search
      rw [if_neg (by simp [ha])]
      exact ih hmem (List.pairwise_cons.mp hdist).2

/-- Characterisation of the zip-based character comparison: all zipped pairs
agree under the case fold iff the characters agree index by index. -/
theorem zip_all_caseFold_iff (as bs : List Char) :
    ((as.zip bs).all fun p => caseInsensitiveEqual p.1 p.2) = true ↔
    ∀ i (h1 : i < as.length) (h2 : i < bs.length),
      tolower (as.get ⟨i, h1⟩) = tolower (bs.get ⟨i, h2⟩) := by
  induction as generalizing bs with
  | nil => simp
  | cons a as ih =>
    cases bs with
    | nil => simp
    | cons b bs =>
      rw [List.zip_cons_cons, List.all_cons, Bool.and_eq_true, ih]
      constructor
      · rintro ⟨h0, hrest⟩ i h1 h2
        cases i with
        | zero => simpa [caseInsensitiveEqual] using h0
        | succ i =>
          exact hrest i (Nat.lt_of_succ_lt_succ h1) (Nat.lt_of_succ_lt_succ h2)
      · intro hall
        refine ⟨?_, fun i h1 h2 => ?_⟩
        · have h0 := hall 0 (Nat.succ_pos _) (Nat.succ_pos _)
          simpa [caseInsensitiveEqual] using h0
        · exact hall (i + 1) (Nat.succ_lt_succ h1) (Nat.succ_lt_succ h2)

/-- The specification's wording of the case-insensitive match: the two names
have equal length and every corresponding character pair is equal under the
locale-independent ASCII case fold. Stated from the spec to be compared with
the source-derived `nameMatches`. -/
def SpecCaseFoldMatch (entryName queryName : String) : Prop :=
  queryName.data.length = entryName.data.length ∧
  ∀ i (h1 : i < entryName.data.length) (h2 : i < queryName.data.length),
    tolower (entryName.data.get ⟨i, h1⟩) = tolower (queryName.data.get ⟨i, h2⟩)

/-- The source's match condition agrees with the specification's wording. -/
theorem nameMatches_iff_specCaseFold (entryName queryName : String) :
    CaseInsensitiveStringSearchPolicy.nameMatches entryName queryName = true ↔
    SpecCaseFoldMatch entryName queryName := by
  unfold CaseInsensitiveStringSearchPolicy.nameMatches SpecCaseFoldMatch
  rw [Bool.and_eq_true, decide_eq_true_eq, zip_all_caseFold_iff]

/-- Strictly ascending values: earlier entries have strictly smaller values. -/
theorem pairwise_value_lt_get {T : Type} [LinearOrder T]
    {entries : List (Enum T)}
    (hs : List.Pairwise (fun a b => a.value < b.value) entries)
    {i j : Nat} (hi : i < entries.length) (hj : j < entries.length)
    (hij : i < j) :
    (entries.get ⟨i, hi⟩).value < (entries.get ⟨j, hj⟩).value :=
  List.pairwise_iff_get.mp hs ⟨i, hi⟩ ⟨j, hj⟩ hij

/-- If the queried value occurs at index `i` of a strictly-ascending array
and the current search interval `[left, right]` contains `i`, the binary
search loop returns that entry, given enough fuel. -/
theorem searchGo_found {T : Type} [LinearOrder T] [Inhabited T]
    {value : T} {entries : List (Enum T)}
    (hW : entries.length < sizeTCard)
    (hs : List.Pairwise (fun a b => a.value < b.value) entries)
    {i : Nat} (hi : i < entries.length)
    (hval : (entries.get ⟨i, hi⟩).value = value) :
    ∀ fuel left right, left ≤ i → i ≤ right → right < entries.length →
      right - left < fuel →
      SortedSearchPolicy.searchGo value entries fuel left right =
        SearchOutcome.found (entries.get ⟨i, hi⟩) := by
  intro fuel
  induction fuel with
  | zero =>
    intro left right hli hir hrlen hfuel
    omega
  | succ f ih =>
    intro left right hli hir hrlen hfuel
    have hlr : left ≤ right := le_trans hli hir
    unfold SortedSearchPolicy.searchGo
    rw [if_pos hlr]
    set mid := left + (right - left) / 2 with hmiddef
    have hmidr : mid ≤ right := by
      have := Nat.div_le_self (right - left) 2
      omega
    have hmidl : left ≤ mid := Nat.le_add_right _ _
    have hmlen : mid < entries.length := lt_of_le_of_lt hmidr hrlen
    rw [dif_pos hmlen]
    by_cases hveq : (entries.get ⟨mid, hmlen⟩).value = value
    · rw [if_pos hveq]
      rcases Nat.lt_trichotomy mid i with hc | hc | hc
      · exfalso
        have hx := pairwise_value_lt_get hs hmlen hi hc
        rw [hveq, hval] at hx
        exact absurd hx (lt_irrefl value)
      · have hfin : (⟨mid, hmlen⟩ : Fin entries.length) = ⟨i, hi⟩ := Fin.ext hc
        rw [hfin]
      · exfalso
        have hx := pairwise_value_lt_get hs hi hmlen hc
        rw [hveq, hval] at hx
        exact absurd hx (lt_irrefl value)
    · rw [if_neg hveq]
      by_cases hlt : (entries.get ⟨mid, hmlen⟩).value < value
      · rw [if_pos hlt]
        have himid : mid < i := by
          rcases Nat.lt_trichotomy mid i with hc | hc | hc
          · exact hc
          · exfalso
            apply hveq
            have hfin : (⟨mid, hmlen⟩ : Fin entries.length) = ⟨i, hi⟩ := Fin.ext hc
            rw [hfin, hval]
          · exfalso
            have hx := pairwise_value_lt_get hs hi hmlen hc
            rw [hval] at hx
            exact absurd (lt_trans hx hlt) (lt_irrefl value)
        have hmod : (mid + 1) % sizeTCard = mid + 1 :=
          Nat.mod_eq_of_lt (by omega)
        rw [hmod]
        exact ih (mid + 1) right himid hir hrlen (by omega)
      · rw [if_neg hlt]
        have himid : i < mid := by
          rcases Nat.lt_trichotomy i mid with hc | hc | hc
          · exact hc
          · exfalso
            apply hveq
            have hfin : (⟨mid, hmlen⟩ : Fin entries.length) = ⟨i, hi⟩ :=
              Fin.ext hc.symm
            rw [hfin, hval]
          · exfalso
            have hx := pairwise_value_lt_get hs hmlen hi hc
            rw [hval] at hx
            exact hlt hx
        have hmid1 : 1 ≤ mid := by omega
        have hmod : (mid + (sizeTCard - 1)) % sizeTCard = mid - 1 := by
          have h1 : mid + (sizeTCard - 1) = sizeTCard + (mid - 1) := by
            unfold sizeTCard
            omega
          rw [h1, Nat.add_mod_left]
          exact Nat.mod_eq_of_lt (by omega)
        rw [hmod]
        exact ih left (mid - 1) hli (by omega) (by omega) (by omega)

/-- On a strictly-ascending array, the sorted binary search finds every
stored entry by its value. -/
theorem sorted_search_found {T : Type} [LinearOrder T] [Inhabited T]
    {entries : List (Enum T)} {e : Enum T}
    (hW : entries.length < sizeTCard)
    (hs : List.Pairwise (fun a b => a.value < b.value) entries)
    (he : e ∈ entries) :
    SortedSearchPolicy.search e.value entries = SearchOutcome.found e := by
  obtain ⟨⟨i, hi⟩, rfl⟩ := List.mem_iff_get.mp he
  unfold SortedSearchPolicy.search
  have hright : (entries.length + (sizeTCard - 1)) % sizeTCard =
      entries.length - 1 := by
    have h1 : entries.length + (sizeTCard - 1) =
        sizeTCard + (entries.length - 1) := by
      unfold sizeTCard
      omega
    rw [h1, Nat.add_mod_left]
    exact Nat.mod_eq_of_lt (by omega)
  rw [hright]
  exact searchGo_found hW hs hi rfl (entries.length + 66) 0
    (entries.length - 1) (Nat.zero_le i) (by omega) (by omega) (by omega)

/-- Helper: with the default unknown policy, a binary search that finds an
entry makes `fromValueSorted` return that entry (a found default entry is
replaced by the unknown policy's answer, which is that same default entry). -/
theorem fromValueSorted_found {T : Type} [LinearOrder T] [Inhabited T]
    (h : EnumHolder T) (v : T) (e : Enum T)
    (hfound : SortedSearchPolicy.search v h.m_entries = SearchOutcome.found e) :
    EnumHolder.fromValueSorted UnknownPolicy.handle h v =
      SearchOutcome.found e := by
  unfold EnumHolder.fromValueSorted
  rw [hfound]
  simp only [SortedSearchPolicy.wrapResult]
  by_cases hd : e = default_unknown_enum
  · rw [if_pos hd]
    rw [hd]
    rfl
  · rw [if_neg hd]

/- Claim theorems. -/

/-- C1 (code bug): the claim says `SortedSearchPolicy::search` on an array
sorted ascending by value returns the unknown-sentinel entry for every
non-matching query. On the sorted one-entry array [(5, "A")] the query 3
instead drives `right = mid - 1` through an unsigned underflow (`mid = 0`),
making the interval `[0, 2^64 - 1]`, and the next iteration reads
`entries[2^63 - 1]` far out of bounds: undefined behaviour, not the
sentinel. -/
theorem claim_C1_sorted_search_out_of_bounds :
    SortedSearchPolicy.search (3 : Int) [⟨5, "A"⟩] = SearchOutcome.outOfBounds := by
  decide

/-- C2 (code bug): the claim says `fromValue` is total and in-bounds for
every bound strategy combination satisfying its documented precondition.
With `SortedSearchPolicy` bound over the ascending array [(5, "A")] — the
precondition holds — the query 3 makes `fromValue` read the array out of
bounds. -/
theorem claim_C2_fromValue_sorted_out_of_bounds :
    EnumHolder.fromValueSorted UnknownPolicy.handle
      (⟨[⟨5, "A"⟩]⟩ : EnumHolder Int) 3 = SearchOutcome.outOfBounds := by
  decide

/-- C3 fails as stated: pairwise-distinct values and pairwise-distinct names
do not make the name round-trip hold under the case-insensitive strategy,
because an earlier, distinct name can still match the query under the case
fold. Concretely, in [(1, "Red"), (2, "red")] resolving "red" yields
(1, "Red"), not (2, "red"). -/
theorem claim_C3_counterexample :
    ¬ (∀ (entries : List (Enum Int)) (e : Enum Int), e ∈ entries →
        List.Pairwise (fun a b => a.value ≠ b.value) entries →
        List.Pairwise (fun a b => a.name ≠ b.name) entries →
        EnumHolder.fromString CaseInsensitiveStringSearchPolicy.search
          UnknownPolicy.handle ⟨entries⟩ e.name = e) := by
  intro hclaim
  have h := hclaim [⟨1, "Red"⟩, ⟨2, "red"⟩] ⟨2, "red"⟩ (by decide) (by decide)
    (by decide)
  exact absurd h (by decide)

/-- C3 (amended): for every entry `e` of a table, `fromValue e.value = e`
under the linear strategy when values are pairwise distinct and under the
sorted strategy when the array is strictly ascending by value, and
`fromString e.name = e` under the case-sensitive strategy when names are
pairwise distinct and under the case-insensitive strategy when names are
pairwise distinct under the ASCII case fold (pairwise distinctness alone is
not enough for that strategy, as the counterexample shows). -/
theorem claim_C3_roundtrip :
    ∀ (entries : List (Enum Int)) (e : Enum Int), e ∈ entries →
      (List.Pairwise (fun a b => a.value ≠ b.value) entries →
        EnumHolder.fromValue LinearSearchPolicy.search UnknownPolicy.handle
          ⟨entries⟩ e.value = e) ∧
      (List.Pairwise (fun a b => a.value < b.value) entries →
        entries.length < sizeTCard →
        EnumHolder.fromValueSorted UnknownPolicy.handle ⟨entries⟩ e.value =
          SearchOutcome.found e) ∧
      (List.Pairwise (fun a b => a.name ≠ b.name) entries →
        EnumHolder.fromString CaseSensitiveStringSearchPolicy.search
          UnknownPolicy.handle ⟨entries⟩ e.name = e) ∧
      (List.Pairwise
          (fun a b =>
            CaseInsensitiveStringSearchPolicy.nameMatches a.name b.name = false)
          entries →
        EnumHolder.fromString CaseInsensitiveStringSearchPolicy.search
          UnknownPolicy.handle ⟨entries⟩ e.name = e) := by
  intro entries e he
  refine ⟨?_, ?_, ?_, ?_⟩
  · intro hdist
    rw [fromValue_unknownPolicy]
    exact linear_search_roundtrip entries e he hdist
  · intro hs hW
    have hf : SortedSearchPolicy.search e.value entries = SearchOutcome.found e :=
      sorted_search_found hW hs he
    exact fromValueSorted_found ⟨entries⟩ e.value e hf
  · intro hdist
    rw [fromString_unknownPolicy]
    exact caseSensitive_search_roundtrip entries e he hdist
  · intro hdist
    rw [fromString_unknownPolicy]
    exact caseInsensitive_search_roundtrip entries e he hdist

/-- Witness for C3: the round-trip theorem applied to the entry (1, "Red")
of a concrete two-entry table satisfying all four preconditions. -/
theorem claim_C3_witness :
    EnumHolder.fromValue LinearSearchPolicy.search UnknownPolicy.handle
      (⟨[⟨1, "Red"⟩, ⟨2, "Green"⟩]⟩ : EnumHolder Int) 1 = ⟨1, "Red"⟩ ∧
    EnumHolder.fromValueSorted UnknownPolicy.handle
      (⟨[⟨1, "Red"⟩, ⟨2, "Green"⟩]⟩ : EnumHolder Int) 1 =
      SearchOutcome.found ⟨1, "Red"⟩ ∧
    EnumHolder.fromString CaseSensitiveStringSearchPolicy.search
      UnknownPolicy.handle (⟨[⟨1, "Red"⟩, ⟨2, "Green"⟩]⟩ : EnumHolder Int)
      "Red" = ⟨1, "Red"⟩ ∧
    EnumHolder.fromString CaseInsensitiveStringSearchPolicy.search
      UnknownPolicy.handle (⟨[⟨1, "Red"⟩, ⟨2, "Green"⟩]⟩ : EnumHolder Int)
      "Red" = ⟨1, "Red"⟩ := by
  have h := claim_C3_roundtrip [⟨1, "Red"⟩, ⟨2, "Green"⟩] ⟨1, "Red"⟩ (by decide)
  refine ⟨?_, ?_, ?_, ?_⟩
  · exact h.1 (by decide)
  · exact h.2.1 (by decide) (by decide)
  · exact h.2.2.1 (by decide)
  · exact h.2.2.2 (by decide)

/-- C4: under the default unknown policy the resolution operations return
the unknown-sentinel entry — default value, empty name — whenever the query
value matches no entry's value, or the query name matches no entry's name
under the bound name-search strategy (exact equality for the case-sensitive
strategy, case-fold match for the case-insensitive one). -/
theorem claim_C4_unknown_fallback :
    (default_unknown_enum : Enum Int) = ⟨0, ""⟩ ∧
    (∀ (entries : List (Enum Int)) (v : Int),
      (∀ e ∈ entries, e.value ≠ v) →
      EnumHolder.fromValue LinearSearchPolicy.search UnknownPolicy.handle
        ⟨entries⟩ v = default_unknown_enum) ∧
    (∀ (entries : List (Enum Int)) (q : String),
      (∀ e ∈ entries, e.name ≠ q) →
      EnumHolder.fromString CaseSensitiveStringSearchPolicy.search
        UnknownPolicy.handle ⟨entries⟩ q = default_unknown_enum) ∧
    (∀ (entries : List (Enum Int)) (q : String),
      (∀ e ∈ entries,
        CaseInsensitiveStringSearchPolicy.nameMatches e.name q = false) →
      EnumHolder.fromString CaseInsensitiveStringSearchPolicy.search
        UnknownPolicy.handle ⟨entries⟩ q = default_unknown_enum) := by
  refine ⟨rfl, ?_, ?_, ?_⟩
  · intro entries v hall
    rw [fromValue_unknownPolicy]
    exact linear_search_not_found v entries hall
  · intro entries q hall
    rw [fromString_unknownPolicy]
    exact caseSensitive_search_not_found q entries hall
  · intro entries q hall
    rw [fromString_unknownPolicy]
    exact caseInsensitive_search_not_found q entries hall

/-- Witness for C4 at the concrete color table: value 9, name "Purple" and
case-insensitive name "YELLOW" are all absent and resolve to the sentinel. -/
theorem claim_C4_witness :
    EnumHolder.fromValue LinearSearchPolicy.search UnknownPolicy.handle
      colorHolder 9 = default_unknown_enum ∧
    EnumHolder.fromString CaseSensitiveStringSearchPolicy.search
      UnknownPolicy.handle colorHolder "Purple" = default_unknown_enum ∧
    EnumHolder.fromString CaseInsensitiveStringSearchPolicy.search
      UnknownPolicy.handle colorHolder "YELLOW" = default_unknown_enum :=
  ⟨claim_C4_unknown_fallback.2.1 colorEntries 9 (by decide),
   claim_C4_unknown_fallback.2.2.1 colorEntries "Purple" (by decide),
   claim_C4_unknown_fallback.2.2.2 colorEntries "YELLOW" (by decide)⟩

/-- C5: the concrete table [(1, "Red"), (2, "Green"), (3, "Blue"),
(0, "Unknown")] with linear value-search, case-sensitive name-search and the
default unknown policy resolves value 2 to (2, "Green"), value 9 to the
sentinel (0, ""), name "Blue" to (3, "Blue") and name "blue" to the
sentinel, and `allValues` has length 4. -/
theorem claim_C5_concrete_scenario :
    EnumHolder.fromValue LinearSearchPolicy.search UnknownPolicy.handle
      colorHolder 2 = ⟨2, "Green"⟩ ∧
    EnumHolder.fromValue LinearSearchPolicy.search UnknownPolicy.handle
      colorHolder 9 = ⟨0, ""⟩ ∧
    EnumHolder.fromString CaseSensitiveStringSearchPolicy.search
      UnknownPolicy.handle colorHolder "Blue" = ⟨3, "Blue"⟩ ∧
    EnumHolder.fromString CaseSensitiveStringSearchPolicy.search
      UnknownPolicy.handle colorHolder "blue" = ⟨0, ""⟩ ∧
    colorHolder.allValues.length = 4 := by
  decide

/-- C6: the case-insensitive match condition holds iff the two names have
equal length and agree character by character under the ASCII case fold; the
first matching entry in array order is returned; and on the color table,
resolving "red", "RED" and "ReD" each yield the same entry as "Red",
namely (1, "Red"). -/
theorem claim_C6_case_insensitive :
    (∀ (entryName queryName : String),
      CaseInsensitiveStringSearchPolicy.nameMatches entryName queryName = true ↔
      SpecCaseFoldMatch entryName queryName) ∧
    (∀ (pre suf : List (Enum Int)) (x : Enum Int) (q : String),
      (∀ a ∈ pre,
        CaseInsensitiveStringSearchPolicy.nameMatches a.name q = false) →
      CaseInsensitiveStringSearchPolicy.nameMatches x.name q = true →
      EnumHolder.fromString CaseInsensitiveStringSearchPolicy.search
        UnknownPolicy.handle ⟨pre ++ x :: suf⟩ q = x) ∧
    (EnumHolder.fromString CaseInsensitiveStringSearchPolicy.search
        UnknownPolicy.handle colorHolder "red" =
      EnumHolder.fromString CaseInsensitiveStringSearchPolicy.search
        UnknownPolicy.handle colorHolder "Red" ∧
     EnumHolder.fromString CaseInsensitiveStringSearchPolicy.search
        UnknownPolicy.handle colorHolder "RED" =
      EnumHolder.fromString CaseInsensitiveStringSearchPolicy.search
        UnknownPolicy.handle colorHolder "Red" ∧
     EnumHolder.fromString CaseInsensitiveStringSearchPolicy.search
        UnknownPolicy.handle colorHolder "ReD" =
      EnumHolder.fromString CaseInsensitiveStringSearchPolicy.search
        UnknownPolicy.handle colorHolder "Red" ∧
     EnumHolder.fromString CaseInsensitiveStringSearchPolicy.search
        UnknownPolicy.handle colorHolder "Red" = ⟨1, "Red"⟩) := by
  refine ⟨nameMatches_iff_specCaseFold, ?_, by decide⟩
  intro pre suf x q hpre hx
  rw [fromString_unknownPolicy]
  exact caseInsensitive_search_first_match q pre suf x hpre hx

/-- Witness for C6: the first-match clause applied to a concrete table and
query, with both hypotheses discharged by evaluation. -/
theorem claim_C6_witness :
    EnumHolder.fromString CaseInsensitiveStringSearchPolicy.search
      UnknownPolicy.handle (⟨[⟨1, "Red"⟩, ⟨2, "Green"⟩]⟩ : EnumHolder Int)
      "rEd" = ⟨1, "Red"⟩ :=
  claim_C6_case_insensitive.2.1 [] [⟨2, "Green"⟩] ⟨1, "Red"⟩ "rEd"
    (by decide) (by decide)

/-- C7: under the linear value-search strategy, when the array stores a
later entry with the same value as `x` but a different name, `fromValue` on
that value returns `x`, the occurrence earliest in array order. -/
theorem claim_C7_linear_first_occurrence :
    ∀ (pre suf : List (Enum Int)) (x y : Enum Int),
      y ∈ suf → y.value = x.value → y.name ≠ x.name →
      (∀ a ∈ pre, a.value ≠ x.value) →
      EnumHolder.fromValue LinearSearchPolicy.search UnknownPolicy.handle
        ⟨pre ++ x :: suf⟩ x.value = x := by
  intro pre suf x y hy hyv hyn hpre
  rw [fromValue_unknownPolicy]
  exact linear_search_first_match x.value pre suf x hpre rfl

/-- Witness for C7: in [(1, "A"), (2, "B"), (2, "C")] the value 2 resolves
to (2, "B"), the earlier of the two duplicates. -/
theorem claim_C7_witness :
    EnumHolder.fromValue LinearSearchPolicy.search UnknownPolicy.handle
      (⟨[⟨1, "A"⟩, ⟨2, "B"⟩, ⟨2, "C"⟩]⟩ : EnumHolder Int) 2 = ⟨2, "B"⟩ :=
  claim_C7_linear_first_occurrence [⟨1, "A"⟩] [⟨2, "C"⟩] ⟨2, "B"⟩ ⟨2, "C"⟩
    (by decide) (by decide) (by decide) (by decide)

/-- C8: `allValues` returns a sequence of the declared length `N` whose
`i`-th element is the `i`-th entry of the backing array, and the backing
array itself is returned unchanged. -/
theorem claim_C8_allValues_order :
    ∀ (h : EnumHolder Int) (N : Nat), h.m_entries.length = N →
      h.allValues.length = N ∧
      (∀ i (hi1 : i < h.allValues.length) (hi2 : i < h.m_entries.length),
        h.allValues.get ⟨i, hi1⟩ = h.m_entries.get ⟨i, hi2⟩) ∧
      h.allValues = h.m_entries := by
  intro h N hN
  exact ⟨hN, fun i hi1 hi2 => rfl, rfl⟩

/-- Witness for C8 at the color table with its declared size 4. -/
theorem claim_C8_witness :
    colorHolder.allValues.length = 4 :=
  (claim_C8_allValues_order colorHolder 4 (by decide)).1

/-- C9: every operation is a pure function of the bound array and the query:
for any strategy bindings, two holders over equal backing arrays give equal
results for `fromValue` (linear-style or sorted) and `fromString`, and equal
`allValues`; no operation mutates the holder or its entries (the embedding
of the `constexpr`, `const` source is state-free by construction). -/
theorem claim_C9_pure_deterministic :
    ∀ (searchV handleV : Int → List (Enum Int) → Enum Int)
      (searchS handleS : String → List (Enum Int) → Enum Int)
      (h1 h2 : EnumHolder Int) (v : Int) (q : String),
      h1.m_entries = h2.m_entries →
      EnumHolder.fromValue searchV handleV h1 v =
        EnumHolder.fromValue searchV handleV h2 v ∧
      EnumHolder.fromValueSorted handleV h1 v =
        EnumHolder.fromValueSorted handleV h2 v ∧
      EnumHolder.fromString searchS handleS h1 q =
        EnumHolder.fromString searchS handleS h2 q ∧
      h1.allValues = h2.allValues := by
  intro searchV handleV searchS handleS h1 h2 v q heq
  have h12 : h1 = h2 := by
    cases h1
    cases h2
    simpa using heq
  rw [h12]
  exact ⟨rfl, rfl, rfl, rfl⟩

/-- Witness for C9: two holders built over the same entry list resolve the
value 2 identically. -/
theorem claim_C9_witness :
    EnumHolder.fromValue LinearSearchPolicy.search UnknownPolicy.handle
      colorHolder 2 =
    EnumHolder.fromValue LinearSearchPolicy.search UnknownPolicy.handle
      ⟨colorEntries⟩ 2 :=
  (claim_C9_pure_deterministic LinearSearchPolicy.search UnknownPolicy.handle
    CaseSensitiveStringSearchPolicy.search UnknownPolicy.handle
    colorHolder ⟨colorEntries⟩ 2 "Red" rfl).1

/-- C10: whenever the bound search policy's result equals the
default-constructed entry, `fromValue` and `fromString` return the unknown
policy's result for the original query; consequently a table that stores the
default entry itself resolves its value exactly as a table where that value
is absent — the caller cannot distinguish the two. -/
theorem claim_C10_default_entry_indistinguishable :
    (∀ (searchV handleV : Int → List (Enum Int) → Enum Int)
        (h : EnumHolder Int) (v : Int),
      searchV v h.m_entries = default_unknown_enum →
      EnumHolder.fromValue searchV handleV h v = handleV v h.m_entries) ∧
    (∀ (searchS handleS : String → List (Enum Int) → Enum Int)
        (h : EnumHolder Int) (q : String),
      searchS q h.m_entries = default_unknown_enum →
      EnumHolder.fromString searchS handleS h q = handleS q h.m_entries) ∧
    EnumHolder.fromValue LinearSearchPolicy.search UnknownPolicy.handle
      (⟨[⟨0, ""⟩, ⟨1, "A"⟩]⟩ : EnumHolder Int) 0 =
    EnumHolder.fromValue LinearSearchPolicy.search UnknownPolicy.handle
      (⟨[⟨1, "A"⟩]⟩ : EnumHolder Int) 0 := by
  refine ⟨?_, ?_, by decide⟩
  · intro searchV handleV h v hsearch
    unfold EnumHolder.fromValue
    simp [hsearch]
  · intro searchS handleS h q hsearch
    unfold EnumHolder.fromString
    simp [hsearch]

/-- Witness for C10: with a non-default unknown handler, a query whose
search result comes back equal to the default entry is answered by the
handler. -/
theorem claim_C10_witness :
    EnumHolder.fromValue LinearSearchPolicy.search
      (fun v _ => ⟨v, "missing"⟩) (⟨[⟨1, "A"⟩]⟩ : EnumHolder Int) 0 =
      ⟨0, "missing"⟩ :=
  claim_C10_default_entry_indistinguishable.1 LinearSearchPolicy.search
    (fun v _ => ⟨v, "missing"⟩) ⟨[⟨1, "A"⟩]⟩ 0 (by decide)

end Trlc
